import Mathlib

/-!
Verification of the SeQUeNCe two-node entanglement-distribution example.

The repository source under `src/` is the notebook `example/two_node_eg.ipynb`,
whose own code (`eg_rule_condition`, `eg_rule_action1`, `eg_rule_action2`,
`eg_req_func`, `test`) is embedded faithfully below.  The SeQUeNCe library
modules the notebook imports (`sequence.kernel.timeline`,
`sequence.resource_management`, `sequence.entanglement_management.generation`)
are not part of the source tree, so those components are modelled from the
specification where a claim depends on them; every such definition is marked
`Modelled from the spec:`.
-/

namespace SeQUeNCe

/-! ### Events and the event queue (modelled from the spec) -/

/-- Modelled from the spec: an `Event` of the discrete-event kernel
(`sequence.kernel.event`, not in `src/`): scheduled time in picoseconds,
priority used as tie-break, the insertion sequence number the kernel assigns
at scheduling time (FIFO tie-break), and an abstract target entity id. -/
structure Event where
  time : Nat
  priority : Nat
  seq : Nat
  target : Nat
  deriving DecidableEq, Repr

/-- Modelled from the spec: the event ordering — primarily by `scheduled_time`
ascending; ties broken by priority, then by insertion sequence (FIFO). -/
def eventLE (a b : Event) : Prop :=
  a.time < b.time ∨
    (a.time = b.time ∧
      (a.priority < b.priority ∨ (a.priority = b.priority ∧ a.seq ≤ b.seq)))

instance : DecidableRel eventLE := by
  intro a b
  unfold eventLE
  infer_instance

instance : IsTotal Event eventLE := by
  constructor
  intro a b
  unfold eventLE
  omega

instance : IsTrans Event eventLE := by
  constructor
  intro a b c hab hbc
  unfold eventLE at *
  omega

/-- Modelled from the spec: the Event Queue is an ordered priority structure;
we represent it as a list kept sorted by `eventLE`. -/
abbrev EventQueue : Type := List Event

/-- Modelled from the spec: `push(event)` inserts into the ordered structure. -/
def push (q : EventQueue) (e : Event) : EventQueue :=
  List.orderedInsert eventLE e q

/-- Modelled from the spec: `pop_earliest()` removes and returns the minimum
event by the ordering, failing (`none`, for `EmptyQueue`) when empty. -/
def popEarliest (q : EventQueue) : Option (Event × EventQueue) :=
  match q with
  | [] => none
  | e :: rest => some (e, rest)

/-- The sequence of events returned by repeatedly calling `pop_earliest`
until the queue is empty: the order in which the Timeline executes them. -/
def drain (q : EventQueue) : List Event :=
  match h : popEarliest q with
  | none => []
  | some (e, rest) => e :: drain rest
termination_by q.length
decreasing_by
  cases q with
  | nil => simp [popEarliest] at h
  | cons x xs =>
      simp [popEarliest] at h
      simp [h.2.symm]

theorem drain_eq (q : EventQueue) : drain q = q := by
  induction q with
  | nil => simp [drain, popEarliest]
  | cons e rest ih =>
      rw [drain]
      simp [popEarliest]
      exact ih

/-- Assign insertion sequence numbers to scheduling requests
`(time, priority, target)` starting from counter `n`: the kernel stamps each
scheduled event with the next counter value. -/
def tagSeq (n : Nat) (reqs : List (Nat × Nat × Nat)) : List Event :=
  match reqs with
  | [] => []
  | (t, p, tgt) :: rest => ⟨t, p, n, tgt⟩ :: tagSeq (n + 1) rest

/-- Insert a list of already-stamped events into a queue, one push at a time. -/
def pushAll (q : EventQueue) (es : List Event) : EventQueue :=
  es.foldl push q

/-- The queue obtained by scheduling `reqs` (in the given insertion order,
starting from sequence counter `n`) into queue `q`. -/
def scheduleAll (q : EventQueue) (n : Nat) (reqs : List (Nat × Nat × Nat)) :
    EventQueue :=
  pushAll q (tagSeq n reqs)

theorem sorted_push {q : EventQueue} (e : Event)
    (h : List.Sorted eventLE q) : List.Sorted eventLE (push q e) :=
  List.Sorted.orderedInsert e q h

theorem sorted_pushAll {q : EventQueue} (es : List Event)
    (h : List.Sorted eventLE q) : List.Sorted eventLE (pushAll q es) := by
  induction es generalizing q with
  | nil => exact h
  | cons e rest ih => exact ih (sorted_push e h)

theorem perm_pushAll (q : EventQueue) (es : List Event) :
    List.Perm (pushAll q es) (q ++ es) := by
  induction es generalizing q with
  | nil => simp [pushAll]
  | cons e rest ih =>
      have h1 : pushAll q (e :: rest) = pushAll (push q e) rest := rfl
      rw [h1]
      refine (ih (push q e)).trans ?_
      have h2 : List.Perm (push q e) (e :: q) :=
        List.perm_orderedInsert eventLE e q
      refine (h2.append_right rest).trans ?_
      simp only [List.cons_append]
      exact (List.perm_middle).symm

/-! ### Timeline (modelled from the spec) -/

/-- Modelled from the spec: errors of the simulation kernel —
`InvalidSchedule` for scheduling into the past, `NotInitialized` for calling
`run()` before `init()`, `EmptyQueue` for popping an empty queue. -/
inductive SimError where
  | invalidSchedule
  | notInitialized
  | emptyQueue
  deriving DecidableEq, Repr

/-- Modelled from the spec: the `Timeline` (`sequence.kernel.timeline`, not in
`src/`): owns the Event Queue, the current simulated time, the stop time, the
next insertion sequence counter, and whether `init()` has been called. -/
structure Timeline where
  time : Nat
  stopTime : Nat
  events : EventQueue
  nextSeq : Nat
  isInit : Bool
  deriving Repr

/-- Modelled from the spec: `schedule(event)` fails with `InvalidSchedule`
if `scheduled_time < current_time`; otherwise the event is stamped with the
next insertion sequence number and pushed into the queue. -/
def schedule (tl : Timeline) (t p tgt : Nat) : Except SimError Timeline :=
  if t < tl.time then Except.error SimError.invalidSchedule
  else Except.ok { tl with
    events := push tl.events ⟨t, p, tl.nextSeq, tgt⟩,
    nextSeq := tl.nextSeq + 1 }

/-- Modelled from the spec: `init()` performs one-time setup on all
registered entities. -/
def initTimeline (tl : Timeline) : Timeline :=
  { tl with isInit := true }

/-- Modelled from the spec: `run()` is a programming error before `init()`;
otherwise it repeatedly pops the earliest event, advances `current_time` to
its `scheduled_time`, and dispatches; it stops when the queue is empty or the
next event's time exceeds the stop time.  Returns the executed trace and the
final timeline. -/
def runLoop (tl : Timeline) (fuel : Nat) : List Event × Timeline :=
  match fuel with
  | 0 => ([], tl)
  | fuel + 1 =>
      match popEarliest tl.events with
      | none => ([], tl)
      | some (e, rest) =>
          if tl.stopTime < e.time then ([], tl)
          else
            let (tr, tl') := runLoop { tl with time := e.time, events := rest } fuel
            (e :: tr, tl')

/-- Modelled from the spec: `run()`, failing when the timeline was not
initialized. -/
def run (tl : Timeline) : Except SimError (List Event × Timeline) :=
  if tl.isInit then Except.ok (runLoop tl tl.events.length)
  else Except.error SimError.notInitialized

/-! ### Seeded stochastic collaborators (modelled from the spec, for the
determinism requirement) -/

/-- Modelled from the spec: a stochastic collaborator (attenuation loss,
detector efficiency) draws pseudo-random values from a deterministic
generator seeded by `set_seed`; a linear congruential step. -/
def lcgStep (s : Nat) : Nat :=
  (s * 1103515245 + 12345) % 4294967296

/-- The pseudo-random stream a seeded collaborator produces. -/
def lcgStream (seed : Nat) : Nat → Nat
  | 0 => lcgStep seed
  | n + 1 => lcgStep (lcgStream seed n)

/-- Modelled from the spec: one full simulation run as a function of its
inputs (scheduling requests, stop time) and the seeds of the stochastic
collaborators: each executed event is paired with the pseudo-random draw the
collaborators would consume at that step, so the trace captures the complete
execution order of a seeded run. -/
def seededRunOrder (seeds : List Nat) (stop : Nat)
    (reqs : List (Nat × Nat × Nat)) : List (Event × List Nat) :=
  let tl : Timeline :=
    { time := 0, stopTime := stop, events := scheduleAll [] 0 reqs,
      nextSeq := reqs.length, isInit := true }
  let (tr, _) := runLoop tl tl.events.length
  tr.enum.map (fun p => (p.2, seeds.map (fun s => lcgStream s p.1)))

/-! ### Memory resource records (modelled from the spec) -/

/-- Modelled from the spec: the state of a memory resource record. -/
inductive MemState where
  | RAW
  | OCCUPIED
  | ENTANGLED
  deriving DecidableEq, Repr

/-- Modelled from the spec: a memory resource record
(`sequence.resource_management.memory_manager`, not in `src/`): id, name,
state, `entangle_time`, and the weak reference to the paired remote memory
(remote node plus remote memory name).  `RAW` is the initial state and
`entangle_time` starts unset (-1). -/
structure MemoryInfo where
  id : Nat
  name : String
  state : MemState := MemState.RAW
  entangleTime : Int := -1
  remoteNode : Option String := none
  remoteMemo : Option String := none
  deriving DecidableEq, Repr

/-- A freshly created memory record, as `tl.init()` leaves each of the 50
memories per router: state `RAW`, no entanglement metadata. -/
def initMemory (i : Nat) (nm : String) : MemoryInfo :=
  { id := i, name := nm }

/-- Modelled from the spec: the primitive operations that mutate a memory
record's state — a rule action occupying a `RAW` memory, a protocol
reporting entanglement success or failure, and the expiration force-reset
of a stalled `OCCUPIED` memory. -/
inductive MemOp where
  | occupy
  | entangleSuccess (remoteNode : String) (remoteMemo : Option String) (now : Nat)
  | releaseFail
  | expireReset
  deriving Repr

/-- Modelled from the spec: the effect of each memory-mutating operation.
Occupation takes a `RAW` record; success and failure reports and expiration
release an `OCCUPIED` record. -/
def memStep (op : MemOp) (mi : MemoryInfo) : MemoryInfo :=
  match op with
  | MemOp.occupy =>
      if mi.state = MemState.RAW then { mi with state := MemState.OCCUPIED }
      else mi
  | MemOp.entangleSuccess rn rmem now =>
      if mi.state = MemState.OCCUPIED then
        { mi with state := MemState.ENTANGLED, entangleTime := (now : Int),
                  remoteNode := some rn, remoteMemo := rmem }
      else mi
  | MemOp.releaseFail =>
      if mi.state = MemState.OCCUPIED then { mi with state := MemState.RAW }
      else mi
  | MemOp.expireReset =>
      if mi.state = MemState.OCCUPIED then { mi with state := MemState.RAW }
      else mi

/-- The transitions the spec permits for a memory record:
`RAW→OCCUPIED→{ENTANGLED, RAW}` (staying put is always allowed). -/
def allowedTransition (a b : MemState) : Prop :=
  a = b ∨
    (a = MemState.RAW ∧ b = MemState.OCCUPIED) ∨
    (a = MemState.OCCUPIED ∧ (b = MemState.ENTANGLED ∨ b = MemState.RAW))

instance : ∀ a b, Decidable (allowedTransition a b) := by
  intro a b
  unfold allowedTransition
  infer_instance

/-! ### Protocols, rules and the notebook definitions (from `src/`) -/

/-- The states of the Barrett-Kok entanglement-generation state machine
(modelled from the spec; `sequence.entanglement_management.generation` is not
in `src/`). -/
inductive EGState where
  | INIT
  | NEGOTIATE
  | WAIT_EMISSION
  | WAIT_DETECTION
  | ENTANGLED
  | FAILED
  deriving DecidableEq, Repr

/-- A protocol instance installed at a node.  `isEGA` tags instances of
`EntanglementGenerationA` (other protocol classes exist in the library);
`partner`/`started` record pairing state. -/
structure Protocol where
  name : String
  isEGA : Bool
  middleName : String
  remoteNodeName : String
  memoryName : String
  primary : Bool := false
  partner : Option String := none
  started : Bool := false
  state : EGState := EGState.INIT
  deriving Repr, DecidableEq

/-- The `EntanglementGenerationA(None, name, middle, remote, memory)`
constructor as the notebook calls it (the first argument, the owner, is
bound later and omitted here). -/
def EntanglementGenerationA (name middle remote memoryName : String) :
    Protocol :=
  { name := name, isEGA := true, middleName := middle,
    remoteNodeName := remote, memoryName := memoryName }

/-- Rule-condition and action argument (the notebook passes `None`). -/
abbrev Args : Type := Option Unit

/-- The manager state a rule condition may inspect. -/
abbrev ManagerView : Type := List MemoryInfo

/-- A remote condition function carried by a pairing request. -/
abbrev ReqFun : Type := List Protocol → Args → Option Protocol

/-- From `src/example/two_node_eg.ipynb`: the rule condition — a memory in
the `RAW` state matches (as a singleton list), anything else yields the
empty match. -/
def eg_rule_condition (memory_info : MemoryInfo) (manager : ManagerView)
    (args : Args) : List MemoryInfo :=
  if memory_info.state = MemState.RAW then [memory_info] else []

/-- From `src/example/two_node_eg.ipynb`: the remote requirement function —
iterate over the protocols and return the first `EntanglementGenerationA`
instance; fall through to `None` when there is none. -/
def eg_req_func (protocols : List Protocol) (args : Args) : Option Protocol :=
  match protocols with
  | [] => none
  | p :: rest => if p.isEGA then some p else eg_req_func rest args

/-- The 4-tuple a rule action returns:
`(protocol, remote_node_ids, remote_condition_fns, remote_args)`.  The
notebook returns Python lists whose entries may be `None`, hence the
`Option`s. -/
structure ActionResult where
  protocol : Protocol
  dsts : List (Option String)
  reqFuns : List (Option ReqFun)
  reqArgs : List Args

/-- From `src/example/two_node_eg.ipynb`: the action on router 1 — take
`memories[0]` (a Python `IndexError`, here `none`, on an empty match list),
create a primary `EntanglementGenerationA` toward `r2` through `m1`, and
request that `r2` pair a protocol selected by `eg_req_func`. -/
def eg_rule_action1 (memories_info : List MemoryInfo) (args : Args) :
    Option ActionResult :=
  match memories_info with
  | [] => none
  | info :: _ =>
      let memory := info
      let protocol :=
        { EntanglementGenerationA ("EGA." ++ memory.name) "m1" "r2"
            memory.name with primary := true }
      some ⟨protocol, [some "r2"], [some eg_req_func], [none]⟩

/-- From `src/example/two_node_eg.ipynb`: the action on router 2 — create an
`EntanglementGenerationA` toward `r1` through `m1`; the remote-node list is
`[None]`, so no pairing request is issued. -/
def eg_rule_action2 (memories_info : List MemoryInfo) (args : Args) :
    Option ActionResult :=
  match memories_info with
  | [] => none
  | info :: _ =>
      let memory := info
      let protocol :=
        EntanglementGenerationA ("EGA." ++ memory.name) "m1" "r1" memory.name
      some ⟨protocol, [none], [none], [none]⟩

/-- A `Rule(priority, action, condition, action_args, condition_args)` as
the notebook constructs it. -/
structure Rule where
  priority : Nat
  action : List MemoryInfo → Args → Option ActionResult
  condition : MemoryInfo → ManagerView → Args → List MemoryInfo
  actionArgs : Args := none
  conditionArgs : Args := none

/-- The rule `Rule(10, eg_rule_action1, eg_rule_condition, None, None)` of the
notebook, loaded on router 1. -/
def rule1 : Rule :=
  ⟨10, eg_rule_action1, eg_rule_condition, none, none⟩

/-- The rule `Rule(10, eg_rule_action2, eg_rule_condition, None, None)` of the
notebook, loaded on router 2. -/
def rule2 : Rule :=
  ⟨10, eg_rule_action2, eg_rule_condition, none, none⟩

/-! ### Resource Manager (modelled from the spec) -/

/-- Modelled from the spec: a pairing request as buffered by a Resource
Manager — keyed by the remote node id (`srcNode`), carrying the requesting
protocol's name, the remote condition function and its arguments, and the
expiry tick of its timeout. -/
structure Request where
  srcNode : String
  srcProtocol : String
  reqFun : ReqFun
  reqArgs : Args
  expiry : Nat

/-- Modelled from the spec: an outgoing pairing request produced when a rule
action names a remote node: destination node id, the condition function and
the args to carry. -/
structure OutRequest where
  dst : String
  reqFun : ReqFun
  reqArgs : Args

/-- Modelled from the spec: the acknowledgement sent back to the requesting
node when a pairing request matches, so that the requesting protocol also
references the matched protocol as its partner. -/
structure PairResponse where
  dstNode : String
  srcProtocolName : String
  matchedName : String

/-- Modelled from the spec: a per-node Resource Manager
(`sequence.resource_management.resource_manager`, not in `src/`): the
ordered rule set, the authoritative memory table, the installed protocol
instances, the buffer of unmatched pairing requests, the outbox of pairing
requests to send, the outbox of pairing acknowledgements to send back to
requesters, and an error log (never written by request handling —
unmatched requests are not escalated). -/
structure ResourceManager where
  nodeName : String
  rules : List Rule
  memories : List MemoryInfo
  protocols : List Protocol
  pending : List Request := []
  outbox : List OutRequest := []
  responses : List PairResponse := []
  errorLog : List String := []

/-- Mark the named protocol as paired with `partnerName` and signal it to
start its handshake. -/
def markPaired (ps : List Protocol) (pname partnerName : String) :
    List Protocol :=
  ps.map (fun q =>
    if q.name = pname then
      { q with partner := some partnerName, started := true }
    else q)

/-- Modelled from the spec: re-evaluate buffered pairing requests against a
protocol set (used each time a protocol is installed — buffered requests
wait "until a matching protocol is installed or a timeout fires").  Returns
the updated protocols, the requests that still found no match (kept
buffered), and the acknowledgements for the requests whose pairing
completed. -/
def matchPending : List Request → List Protocol →
    List Protocol × List Request × List PairResponse
  | [], ps => (ps, [], [])
  | req :: rest, ps =>
      match req.reqFun ps req.reqArgs with
      | some p =>
          let r := matchPending rest (markPaired ps p.name req.srcProtocol)
          (r.1, r.2.1, ⟨req.srcNode, req.srcProtocol, p.name⟩ :: r.2.2)
      | none =>
          let r := matchPending rest ps
          (r.1, req :: r.2.1, r.2.2)

/-- Modelled from the spec: the step the Resource Manager performs after
every protocol installation — buffered unmatched pairing requests are
re-evaluated against the updated protocol set; each one whose condition
function now matches completes its pairing (the matched protocol references
the requester and is started, and an acknowledgement is queued for the
requesting node), while the rest remain buffered until their timeout. -/
def installRetry (rm : ResourceManager) : ResourceManager :=
  { rm with
    protocols := (matchPending rm.pending rm.protocols).1,
    pending := (matchPending rm.pending rm.protocols).2.1,
    responses := rm.responses ++ (matchPending rm.pending rm.protocols).2.2 }

/-- Zip the remote-node ids with the condition functions and args of an
action result, emitting one outgoing pairing request per non-`None` remote
node id (a `None` entry, as in `eg_rule_action2`, produces nothing). -/
def buildRequests : List (Option String) → List (Option ReqFun) →
    List Args → List OutRequest
  | some d :: ds, some f :: fs, a :: cs => ⟨d, f, a⟩ :: buildRequests ds fs cs
  | _ :: ds, _ :: fs, _ :: cs => buildRequests ds fs cs
  | _, _, _ => []

/-- Set the matched records to `OCCUPIED` (the protocol created by the fired
action now holds them). -/
def setMemoriesOccupied (mems matched : List MemoryInfo) : List MemoryInfo :=
  mems.map (fun mi =>
    if matched.any (fun m => mi.id == m.id) then memStep MemOp.occupy mi
    else mi)

/-- Modelled from the spec: interpret an action's 4-tuple — install the
created protocol locally, occupy the matched records, and emit one pairing
request per non-`None` remote node id, carrying the corresponding condition
function and args. -/
def processAction (rm : ResourceManager) (matched : List MemoryInfo)
    (res : ActionResult) : ResourceManager :=
  { rm with
    protocols := rm.protocols ++ [res.protocol],
    memories := setMemoriesOccupied rm.memories matched,
    outbox := rm.outbox ++ buildRequests res.dsts res.reqFuns res.reqArgs }

/-- Evaluate one rule against one record: fire its action when the
condition's match set is non-empty, installing the created protocol and then
re-evaluating the buffered pairing requests against the updated protocol
set (`installRetry`), as the spec requires on every installation. -/
def tryRuleOn (rm : ResourceManager) (rule : Rule) (mi : MemoryInfo) :
    Option ResourceManager :=
  let matched := rule.condition mi rm.memories rule.conditionArgs
  if matched.isEmpty then none
  else
    match rule.action matched rule.actionArgs with
    | none => none
    | some res => some (installRetry (processAction rm matched res))

/-- Evaluate rules in order (the rule list is kept sorted by descending
priority) until the first one fires for the given record. -/
def tryRulesOn (rm : ResourceManager) (mi : MemoryInfo) :
    List Rule → ResourceManager
  | [] => rm
  | r :: rest =>
      match tryRuleOn rm r mi with
      | some rm' => rm'
      | none => tryRulesOn rm mi rest

/-- Insert a rule into the rule list ordered by descending priority. -/
def insertRuleOrdered (rule : Rule) : List Rule → List Rule
  | [] => [rule]
  | r :: rest =>
      if r.priority ≤ rule.priority then rule :: r :: rest
      else r :: insertRuleOrdered rule rest

/-- Modelled from the spec: `load(rule)` — insert the rule into the ordered
rule set, then immediately re-evaluate it against all current resource
records, firing its action for each record whose condition matches. -/
def load (rm : ResourceManager) (rule : Rule) : ResourceManager :=
  let rm1 := { rm with rules := insertRuleOrdered rule rm.rules }
  rm.memories.foldl (fun acc mi =>
    match tryRuleOn acc rule mi with
    | none => acc
    | some acc' => acc') rm1

/-- The first memory record with the given id. -/
def findMem (rm : ResourceManager) (i : Nat) : Option MemoryInfo :=
  rm.memories.find? (fun mi => mi.id == i)

/-- The state of the memory record with the given id. -/
def memStateOf (rm : ResourceManager) (i : Nat) : Option MemState :=
  (findMem rm i).map (fun mi => mi.state)

/-- Set the state of the record(s) with the given id. -/
def setMemState (rm : ResourceManager) (i : Nat) (s : MemState) :
    ResourceManager :=
  { rm with memories := rm.memories.map (fun mi =>
      if mi.id == i then { mi with state := s } else mi) }

/-- Modelled from the spec: `update(resource_record, new_state)` — record
the new state, then re-match: evaluate the rules by priority on the changed
record until one's condition returns a non-empty match and invoke its
action. -/
def updateRM (rm : ResourceManager) (i : Nat) (s : MemState) :
    ResourceManager :=
  match findMem (setMemState rm i s) i with
  | none => setMemState rm i s
  | some mi =>
      tryRulesOn (setMemState rm i s) mi (setMemState rm i s).rules

/-- Modelled from the spec: `receive_request(condition_fn, args)` — run the
condition function against this node's installed protocol instances; on a
match, complete the pairing on this side and acknowledge to the requester;
on no match, buffer the request (keyed by its remote node id) — it is not an
error. -/
def receive_request (rm : ResourceManager) (req : Request) :
    ResourceManager × Option PairResponse :=
  match req.reqFun rm.protocols req.reqArgs with
  | some p =>
      ({ rm with protocols := markPaired rm.protocols p.name req.srcProtocol },
        some ⟨req.srcNode, req.srcProtocol, p.name⟩)
  | none => ({ rm with pending := rm.pending ++ [req] }, none)

/-- Modelled from the spec: on the requesting node, a pairing
acknowledgement makes the requesting protocol reference the matched remote
protocol as its partner and signals it to start. -/
def receive_response (rm : ResourceManager) (resp : PairResponse) :
    ResourceManager :=
  { rm with protocols :=
      markPaired rm.protocols resp.srcProtocolName resp.matchedName }

/-- Deliver a pairing request from node `src` to node `dst` and route the
acknowledgement back on a match. -/
def deliverRequest (src dst : ResourceManager) (req : Request) :
    ResourceManager × ResourceManager :=
  match receive_request dst req with
  | (dst', some resp) => (receive_response src resp, dst')
  | (dst', none) => (src, dst')

/-- Modelled from the spec: when an unmatched request's timeout fires it is
silently dropped from the buffer — never escalated as an error. -/
def dropExpired (rm : ResourceManager) (now : Nat) : ResourceManager :=
  { rm with pending := rm.pending.filter (fun req => decide (now < req.expiry)) }

/-! ### Entanglement-generation terminal reporting (modelled from the spec) -/

/-- Modelled from the spec: a protocol instance in `WAIT_DETECTION`
receiving the Bell-state measurement result — on success it transitions to
`ENTANGLED`, records `entangle_time` = current simulated time and marks its
memory `ENTANGLED` with the remote memory reference populated; on failure it
transitions to `FAILED` and releases its memory to `RAW`.  The returned
memory record is what the instance reports to its owning Resource Manager
via `update`. -/
def egReceiveResult (p : Protocol) (mi : MemoryInfo) (success : Bool)
    (now : Nat) : Protocol × MemoryInfo :=
  if p.state = EGState.WAIT_DETECTION then
    if success then
      ({ p with state := EGState.ENTANGLED },
        memStep (MemOp.entangleSuccess p.remoteNodeName p.partner now) mi)
    else
      ({ p with state := EGState.FAILED }, memStep MemOp.releaseFail mi)
  else (p, mi)

end SeQUeNCe

namespace SeQUeNCe

/-- Claim C1: For every sequence of scheduled events (any insertion order, any
times, priorities and targets), draining the event queue by repeated
`pop_earliest` returns the events sorted by the ordering `eventLE`
(non-decreasing `scheduled_time`, ties broken first by `priority`, then by
insertion sequence number — FIFO); `Sorted` is `Pairwise`, so no two pops
ever return events out of this order.  Moreover the drained sequence is
exactly a permutation of the scheduled events, whose sequence stamps record
the insertion order. -/
theorem timeline_pops_ordered (reqs : List (Nat × Nat × Nat)) :
    List.Sorted eventLE (drain (scheduleAll [] 0 reqs)) ∧
      List.Perm (drain (scheduleAll [] 0 reqs)) (tagSeq 0 reqs) := by
  constructor
  · rw [drain_eq]
    exact sorted_pushAll (tagSeq 0 reqs) List.sorted_nil
  · rw [drain_eq]
    simpa using perm_pushAll [] (tagSeq 0 reqs)

/-- Claim C6: `Timeline.schedule` fails with `InvalidSchedule` exactly when the
event's scheduled time is before the current time, and `run()` on a timeline
on which `init()` was not called fails with `NotInitialized`; both surface
immediately as errors and are never recovered into an `ok` result. -/
theorem schedule_past_and_run_uninit_fail (tl : Timeline) (t p tgt : Nat) :
    (t < tl.time → schedule tl t p tgt = Except.error SimError.invalidSchedule) ∧
      (¬ t < tl.time → ∃ tl', schedule tl t p tgt = Except.ok tl') ∧
      (tl.isInit = false → run tl = Except.error SimError.notInitialized) := by
  refine ⟨fun h => ?_, fun h => ?_, fun h => ?_⟩
  · simp [schedule, h]
  · refine ⟨{ tl with
      events := push tl.events ⟨t, p, tl.nextSeq, tgt⟩,
      nextSeq := tl.nextSeq + 1 }, ?_⟩
    simp [schedule, h]
  · simp [run, h]

/-- Witness for C6 at a concrete timeline: current time 100, scheduling at
time 5 fails with `InvalidSchedule`; an uninitialized timeline's `run` fails
with `NotInitialized`. -/
theorem schedule_past_and_run_uninit_fail_witness :
    schedule ⟨100, 1000, [], 0, true⟩ 5 0 0 =
        Except.error SimError.invalidSchedule ∧
      run ⟨0, 1000, [], 0, false⟩ = Except.error SimError.notInitialized := by
  refine ⟨(schedule_past_and_run_uninit_fail ⟨100, 1000, [], 0, true⟩ 5 0 0).1
      (by decide), ?_⟩
  exact (schedule_past_and_run_uninit_fail ⟨0, 1000, [], 0, false⟩ 5 0 0).2.2 rfl

/-- Claim C7: Determinism: two simulation runs with identical inputs
(scheduling requests and stop time) and identical seeds for all stochastic
collaborators produce bit-identical event execution orders, including the
pseudo-random draws consumed along the way. -/
theorem seeded_runs_deterministic (seeds1 seeds2 : List Nat)
    (stop1 stop2 : Nat) (reqs1 reqs2 : List (Nat × Nat × Nat))
    (hseeds : seeds1 = seeds2) (hstop : stop1 = stop2) (hreqs : reqs1 = reqs2) :
    seededRunOrder seeds1 stop1 reqs1 = seededRunOrder seeds2 stop2 reqs2 := by
  rw [hseeds, hstop, hreqs]

/-- Witness for C7 at the notebook's seeds 0, 1, 2 and a concrete workload. -/
theorem seeded_runs_deterministic_witness :
    seededRunOrder [0, 1, 2] 50 [(3, 0, 7), (1, 2, 9)] =
      seededRunOrder [0, 1, 2] 50 [(3, 0, 7), (1, 2, 9)] :=
  seeded_runs_deterministic [0, 1, 2] [0, 1, 2] 50 50
    [(3, 0, 7), (1, 2, 9)] [(3, 0, 7), (1, 2, 9)] rfl rfl rfl

/-- Claim C3: Every memory-mutating operation of the system keeps the record's
state transitions inside `RAW→OCCUPIED→{ENTANGLED, RAW}`; in particular no
operation ever moves a record from `ENTANGLED` directly to `OCCUPIED`; `RAW`
is the initial state of a freshly created record, and both a protocol
failure report and an expiration force-reset return an `OCCUPIED` record to
`RAW`. -/
theorem memory_transitions_confined (op : MemOp) (mi : MemoryInfo)
    (i : Nat) (nm : String) :
    allowedTransition mi.state (memStep op mi).state ∧
      ¬ (mi.state = MemState.ENTANGLED ∧
          (memStep op mi).state = MemState.OCCUPIED) ∧
      (initMemory i nm).state = MemState.RAW ∧
      (mi.state = MemState.OCCUPIED →
        (memStep MemOp.releaseFail mi).state = MemState.RAW ∧
          (memStep MemOp.expireReset mi).state = MemState.RAW) := by
  refine ⟨?_, ?_, rfl, fun h => ?_⟩
  · cases op <;> cases h : mi.state <;>
      simp [memStep, allowedTransition, h]
  · cases op <;> cases h : mi.state <;>
      simp [memStep, h]
  · simp [memStep, h]

/-- Witness for C3: the failure report on a concrete `OCCUPIED` record
yields `RAW`. -/
theorem memory_transitions_confined_witness :
    (memStep MemOp.releaseFail
        ⟨0, "r1.MemoryArray.0", MemState.OCCUPIED, -1, none, none⟩).state =
      MemState.RAW :=
  ((memory_transitions_confined MemOp.releaseFail
      ⟨0, "r1.MemoryArray.0", MemState.OCCUPIED, -1, none, none⟩ 0
      "r1.MemoryArray.0").2.2.2 rfl).1

/-- Claim C8: A protocol instance in `WAIT_DETECTION` receiving a success
result transitions to `ENTANGLED`, records `entangle_time` equal to the
current simulated time on its memory, and marks the memory `ENTANGLED` with
the remote memory reference populated; receiving a failure result it
transitions to `FAILED` and the memory is set to `RAW`, with `entangle_time`
left unset — so a metric keeping records with `entangle_time > 0` counts
exactly the successful attempts. -/
theorem eg_terminal_reporting (p : Protocol) (mi : MemoryInfo) (now : Nat) :
    (p.state = EGState.WAIT_DETECTION → mi.state = MemState.OCCUPIED →
      (egReceiveResult p mi true now).1.state = EGState.ENTANGLED ∧
        (egReceiveResult p mi true now).2.state = MemState.ENTANGLED ∧
        (egReceiveResult p mi true now).2.entangleTime = (now : Int) ∧
        (egReceiveResult p mi true now).2.remoteNode =
          some p.remoteNodeName) ∧
      (p.state = EGState.WAIT_DETECTION → mi.state = MemState.OCCUPIED →
        (egReceiveResult p mi false now).1.state = EGState.FAILED ∧
          (egReceiveResult p mi false now).2.state = MemState.RAW ∧
          (egReceiveResult p mi false now).2.entangleTime =
            mi.entangleTime) := by
  constructor <;> intro h1 h2 <;>
    simp [egReceiveResult, memStep, h1, h2]

/-- Witness for C8 at a concrete protocol and memory in the waiting state:
success entangles at time 5, failure releases to `RAW`. -/
theorem eg_terminal_reporting_witness :
    (egReceiveResult
        { name := "EGA.r1.MemoryArray.0", isEGA := true, middleName := "m1",
          remoteNodeName := "r2", memoryName := "r1.MemoryArray.0",
          primary := true, state := EGState.WAIT_DETECTION }
        ⟨0, "r1.MemoryArray.0", MemState.OCCUPIED, -1, none, none⟩ true
        5).2.state = MemState.ENTANGLED ∧
      (egReceiveResult
        { name := "EGA.r1.MemoryArray.0", isEGA := true, middleName := "m1",
          remoteNodeName := "r2", memoryName := "r1.MemoryArray.0",
          primary := true, state := EGState.WAIT_DETECTION }
        ⟨0, "r1.MemoryArray.0", MemState.OCCUPIED, -1, none, none⟩ false
        5).2.state = MemState.RAW := by
  refine ⟨((eg_terminal_reporting
      { name := "EGA.r1.MemoryArray.0", isEGA := true, middleName := "m1",
        remoteNodeName := "r2", memoryName := "r1.MemoryArray.0",
        primary := true, state := EGState.WAIT_DETECTION }
      ⟨0, "r1.MemoryArray.0", MemState.OCCUPIED, -1, none, none⟩ 5).1 rfl
      rfl).2.1, ?_⟩
  exact ((eg_terminal_reporting
      { name := "EGA.r1.MemoryArray.0", isEGA := true, middleName := "m1",
        remoteNodeName := "r2", memoryName := "r1.MemoryArray.0",
        primary := true, state := EGState.WAIT_DETECTION }
      ⟨0, "r1.MemoryArray.0", MemState.OCCUPIED, -1, none, none⟩ 5).2 rfl
      rfl).2.1

/-- Claim C10: `eg_req_func` returns the first protocol in the list that is an
`EntanglementGenerationA` instance, and returns `None` by implicit
fall-through (without raising) when the list contains no such instance — a
pairing request arriving at a node with only non-`EntanglementGenerationA`
protocols matches nothing. -/
theorem eg_req_func_first_ega (ps : List Protocol) (a : Args) :
    eg_req_func ps a = ps.find? (fun p => p.isEGA) ∧
      ((∀ p ∈ ps, p.isEGA = false) → eg_req_func ps a = none) := by
  have hfind : eg_req_func ps a = ps.find? (fun p => p.isEGA) := by
    induction ps with
    | nil => rfl
    | cons p rest ih =>
        by_cases h : p.isEGA <;> simp [eg_req_func, List.find?, h, ih]
  refine ⟨hfind, fun hall => ?_⟩
  rw [hfind]
  rw [List.find?_eq_none]
  intro p hp
  simp [hall p hp]

/-- Witness for C10: a list holding a single non-`EntanglementGenerationA`
protocol yields no match. -/
theorem eg_req_func_first_ega_witness :
    eg_req_func
        [{ name := "other", isEGA := false, middleName := "m1",
            remoteNodeName := "r1", memoryName := "x" }] none = none := by
  refine (eg_req_func_first_ega
      [{ name := "other", isEGA := false, middleName := "m1",
          remoteNodeName := "r1", memoryName := "x" }] none).2 ?_
  intro p hp
  simp at hp
  rw [hp]

/-- Claim C4: When a rule action returns the 4-tuple
`(protocol, remote_node_ids, remote_condition_fns, remote_args)`, the
Resource Manager installs the created protocol locally and, for each
non-`None` remote node id, emits a pairing request carrying the
corresponding condition function and args: `eg_rule_action1`'s result
installs its protocol and emits exactly one request to `"r2"` carrying
`eg_req_func` and args `None`; `eg_rule_action2`'s result (remote ids
`[None]`) installs its protocol and emits no request. -/
theorem action_result_interpretation (rm : ResourceManager)
    (matched mems : List MemoryInfo) (mi : MemoryInfo) (a : Args) :
    (∀ res, eg_rule_action1 (mi :: mems) a = some res →
      (processAction rm matched res).protocols =
          rm.protocols ++ [res.protocol] ∧
        (processAction rm matched res).outbox =
          rm.outbox ++ [⟨"r2", eg_req_func, none⟩]) ∧
      (∀ res, eg_rule_action2 (mi :: mems) a = some res →
        (processAction rm matched res).protocols =
            rm.protocols ++ [res.protocol] ∧
          (processAction rm matched res).outbox = rm.outbox) := by
  constructor <;> intro res hres
  · simp [eg_rule_action1] at hres
    subst hres
    refine ⟨rfl, ?_⟩
    simp [processAction, buildRequests]
  · simp [eg_rule_action2] at hres
    subst hres
    refine ⟨rfl, ?_⟩
    simp [processAction, buildRequests]

theorem markPaired_length (ps : List Protocol) (pname partnerName : String) :
    (markPaired ps pname partnerName).length = ps.length := by
  unfold markPaired
  exact List.length_map ps _

theorem matchPending_fst_length :
    ∀ (reqs : List Request) (ps : List Protocol),
      (matchPending reqs ps).1.length = ps.length := by
  intro reqs
  induction reqs with
  | nil => intro ps; rfl
  | cons req rest ih =>
      intro ps
      unfold matchPending
      cases h : req.reqFun ps req.reqArgs with
      | some p =>
          simp only []
          rw [ih (markPaired ps p.name req.srcProtocol)]
          exact markPaired_length ps p.name req.srcProtocol
      | none => exact ih ps

theorem installRetry_protocols_length (rm : ResourceManager) :
    (installRetry rm).protocols.length = rm.protocols.length :=
  matchPending_fst_length rm.pending rm.protocols

theorem tryRuleOn_none_of_empty (rm : ResourceManager) (rule : Rule)
    (mi : MemoryInfo)
    (h : (rule.condition mi rm.memories rule.conditionArgs).isEmpty) :
    tryRuleOn rm rule mi = none := by
  simp [tryRuleOn, h]

theorem tryRuleOn_some_of_fire (rm : ResourceManager) (rule : Rule)
    (mi : MemoryInfo) (res : ActionResult)
    (h : ¬ (rule.condition mi rm.memories rule.conditionArgs).isEmpty)
    (ha : rule.action (rule.condition mi rm.memories rule.conditionArgs)
        rule.actionArgs = some res) :
    tryRuleOn rm rule mi =
      some (installRetry (processAction rm
        (rule.condition mi rm.memories rule.conditionArgs) res)) := by
  simp [tryRuleOn, h, ha]

theorem load_fold_protocols (rule : Rule) (ref : ManagerView)
    (hc : ∀ mi v1 v2 a, rule.condition mi v1 a = rule.condition mi v2 a)
    (ha : ∀ matched a, matched ≠ [] → (rule.action matched a).isSome) :
    ∀ (ms : List MemoryInfo) (acc : ResourceManager),
      (ms.foldl (fun acc mi =>
          match tryRuleOn acc rule mi with
          | none => acc
          | some acc' => acc') acc).protocols.length =
        acc.protocols.length +
          ms.countP (fun mi =>
            !(rule.condition mi ref rule.conditionArgs).isEmpty) := by
  intro ms
  induction ms with
  | nil => intro acc; simp
  | cons mi rest ih =>
      intro acc
      by_cases h : (rule.condition mi acc.memories rule.conditionArgs).isEmpty
      · have h' : tryRuleOn acc rule mi = none :=
          tryRuleOn_none_of_empty acc rule mi h
        have href : (rule.condition mi ref rule.conditionArgs).isEmpty =
            true := by
          rw [hc mi ref acc.memories]
          exact h
        simp only [List.foldl_cons, h']
        rw [ih acc, List.countP_cons]
        simp [href]
      · have hne : rule.condition mi acc.memories rule.conditionArgs ≠ [] :=
          fun hnil => h (by simp [hnil])
        obtain ⟨res, hres⟩ := Option.isSome_iff_exists.mp
          (ha (rule.condition mi acc.memories rule.conditionArgs)
            rule.actionArgs hne)
        have h' := tryRuleOn_some_of_fire acc rule mi res h hres
        have href : (rule.condition mi ref rule.conditionArgs).isEmpty =
            false := by
          rw [hc mi ref acc.memories]
          simpa using h
        simp only [List.foldl_cons, h']
        rw [ih, List.countP_cons]
        simp [installRetry_protocols_length, processAction, href]
        omega

theorem mem_insertRuleOrdered (rule : Rule) (rs : List Rule) :
    rule ∈ insertRuleOrdered rule rs := by
  induction rs with
  | nil => simp [insertRuleOrdered]
  | cons r rest ih =>
      unfold insertRuleOrdered
      by_cases h : r.priority ≤ rule.priority <;> simp [h, ih]

theorem load_fold_rules (rule : Rule) :
    ∀ (ms : List MemoryInfo) (acc : ResourceManager),
      (ms.foldl (fun acc mi =>
          match tryRuleOn acc rule mi with
          | none => acc
          | some acc' => acc') acc).rules = acc.rules := by
  intro ms
  induction ms with
  | nil => intro acc; rfl
  | cons mi rest ih =>
      intro acc
      simp only [List.foldl_cons]
      cases h : tryRuleOn acc rule mi with
      | none => exact ih acc
      | some acc' =>
          rw [ih acc']
          unfold tryRuleOn at h
          by_cases hm :
              (rule.condition mi acc.memories rule.conditionArgs).isEmpty
          · simp [hm] at h
          · cases ha : rule.action
                (rule.condition mi acc.memories rule.conditionArgs)
                rule.actionArgs with
            | none => simp [hm, ha] at h
            | some res =>
                simp [hm, ha] at h
                rw [← h]
                rfl

/-- Claim C2: `load(rule)` inserts the rule into the ordered rule set and
immediately re-evaluates it against all current resource records: for any
rule whose condition depends only on the record (as `eg_rule_condition`
does) and whose action fires on every non-empty match (as the notebook
actions do), the action is triggered exactly once per record currently
satisfying the condition — one new protocol per satisfying record, however
late the rule is loaded. -/
theorem load_late_rule_fires_per_record (rm : ResourceManager) (rule : Rule)
    (hc : ∀ mi v1 v2 a, rule.condition mi v1 a = rule.condition mi v2 a)
    (ha : ∀ matched a, matched ≠ [] → (rule.action matched a).isSome) :
    rule ∈ (load rm rule).rules ∧
      (load rm rule).protocols.length = rm.protocols.length +
        rm.memories.countP (fun mi =>
          !(rule.condition mi rm.memories rule.conditionArgs).isEmpty) := by
  constructor
  · unfold load
    rw [load_fold_rules rule rm.memories]
    exact mem_insertRuleOrdered rule rm.rules
  · unfold load
    rw [load_fold_protocols rule rm.memories hc ha rm.memories]

/-- Router 1's Resource Manager before `load`, as `tl.init()` leaves it in
the notebook: memories in the `RAW` state and no rules or protocols (three
memories stand in for the notebook's 50, one already `OCCUPIED` to show only
satisfying records fire). -/
def rmBeforeLoad : ResourceManager :=
  ⟨"r1", [],
    [initMemory 0 "r1m0",
      { initMemory 1 "r1m1" with state := MemState.OCCUPIED },
      initMemory 2 "r1m2"],
    [], [], [], [], []⟩

/-- Witness for C2: loading the notebook's `rule1` into a Resource Manager
whose memories already satisfy its condition (two `RAW` records out of
three) triggers the action exactly once per satisfying record: exactly two
protocols are created, and the rule is installed. -/
theorem load_late_rule_fires_per_record_witness :
    rule1 ∈ (load rmBeforeLoad rule1).rules ∧
      (load rmBeforeLoad rule1).protocols.length =
        rmBeforeLoad.protocols.length +
          rmBeforeLoad.memories.countP (fun mi =>
            !(rule1.condition mi rmBeforeLoad.memories
                rule1.conditionArgs).isEmpty) := by
  refine load_late_rule_fires_per_record rmBeforeLoad rule1
    (fun mi v1 v2 a => rfl) (fun matched a hne => ?_)
  cases matched with
  | nil => exact absurd rfl hne
  | cons m rest => simp [rule1, eg_rule_action1]

theorem memStep_id (op : MemOp) (mi : MemoryInfo) :
    (memStep op mi).id = mi.id := by
  cases op <;> simp [memStep] <;> split <;> rfl

theorem find_update_by_id (ms : List MemoryInfo) (i : Nat)
    (f : MemoryInfo → MemoryInfo) (hf : ∀ mi, (f mi).id = mi.id) :
    (ms.map (fun mi => if mi.id == i then f mi else mi)).find?
        (fun mi => mi.id == i) =
      (ms.find? (fun mi => mi.id == i)).map f := by
  induction ms with
  | nil => rfl
  | cons x xs ih =>
      rw [List.map_cons]
      cases hx : (x.id == i) with
      | true =>
          have hfx : ((f x).id == i) = true := by rw [hf]; exact hx
          rw [if_pos rfl]
          rw [List.find?_cons, List.find?_cons, hfx, hx]
          rfl
      | false =>
          rw [if_neg (show ¬ (false = true) by simp)]
          rw [List.find?_cons, List.find?_cons, hx]
          exact ih

theorem findMem_setMemState (rm : ResourceManager) (i : Nat) (s : MemState) :
    findMem (setMemState rm i s) i =
      (findMem rm i).map (fun mi => { mi with state := s }) := by
  unfold findMem setMemState
  exact find_update_by_id rm.memories i _ (fun mi => rfl)

theorem findMem_id (rm : ResourceManager) (i : Nat) (mi : MemoryInfo)
    (h : findMem rm i = some mi) : mi.id = i := by
  unfold findMem at h
  have h2 := List.find?_some h
  simpa using h2

theorem updateRM_eq_found (rm : ResourceManager) (i : Nat) (s : MemState)
    (mi : MemoryInfo) (h : findMem (setMemState rm i s) i = some mi) :
    updateRM rm i s =
      tryRulesOn (setMemState rm i s) mi (setMemState rm i s).rules := by
  unfold updateRM
  rw [h]

theorem updateRM_eq_notfound (rm : ResourceManager) (i : Nat) (s : MemState)
    (h : findMem (setMemState rm i s) i = none) :
    updateRM rm i s = setMemState rm i s := by
  unfold updateRM
  rw [h]

theorem tryRulesOn_nil (rm : ResourceManager) (mi : MemoryInfo) :
    tryRulesOn rm mi [] = rm := rfl

theorem tryRulesOn_cons_none (rm : ResourceManager) (mi : MemoryInfo)
    (r : Rule) (rest : List Rule) (h : tryRuleOn rm r mi = none) :
    tryRulesOn rm mi (r :: rest) = tryRulesOn rm mi rest := by
  have heq : tryRulesOn rm mi (r :: rest) =
      match tryRuleOn rm r mi with
      | some rm' => rm'
      | none => tryRulesOn rm mi rest := rfl
  rw [heq, h]

theorem tryRulesOn_cons_some (rm : ResourceManager) (mi : MemoryInfo)
    (r : Rule) (rest : List Rule) (rm' : ResourceManager)
    (h : tryRuleOn rm r mi = some rm') :
    tryRulesOn rm mi (r :: rest) = rm' := by
  have heq : tryRulesOn rm mi (r :: rest) =
      match tryRuleOn rm r mi with
      | some rm2 => rm2
      | none => tryRulesOn rm mi rest := rfl
  rw [heq, h]

theorem tryRulesOn_rules (rm : ResourceManager) (mi : MemoryInfo) :
    ∀ rs, (tryRulesOn rm mi rs).rules = rm.rules := by
  intro rs
  induction rs with
  | nil => rfl
  | cons r rest ih =>
      cases h : tryRuleOn rm r mi with
      | none =>
          rw [tryRulesOn_cons_none rm mi r rest h]
          exact ih
      | some rm' =>
          rw [tryRulesOn_cons_some rm mi r rest rm' h]
          unfold tryRuleOn at h
          by_cases hm :
              (r.condition mi rm.memories r.conditionArgs).isEmpty
          · simp [hm] at h
          · cases ha : r.action (r.condition mi rm.memories r.conditionArgs)
                r.actionArgs with
            | none => simp [hm, ha] at h
            | some res =>
                simp [hm, ha] at h
                rw [← h]
                rfl

theorem updateRM_rules (rm : ResourceManager) (i : Nat) (s : MemState) :
    (updateRM rm i s).rules = rm.rules := by
  cases h : findMem (setMemState rm i s) i with
  | none => rw [updateRM_eq_notfound rm i s h]; rfl
  | some m => rw [updateRM_eq_found rm i s m h, tryRulesOn_rules]; rfl

theorem findMem_processAction (rm : ResourceManager) (i : Nat)
    (m : MemoryInfo) (res : ActionResult) (hid : m.id = i) :
    findMem (processAction rm [m] res) i =
      (findMem rm i).map (memStep MemOp.occupy) := by
  unfold findMem processAction setMemoriesOccupied
  simp only [List.any_cons, List.any_nil, Bool.or_false, hid]
  exact find_update_by_id rm.memories i _ (memStep_id MemOp.occupy)

theorem update_unchanged_no_fire (rm' : ResourceManager) (i : Nat)
    (s' : MemState) (hrules : rm'.rules = [rule1])
    (hstate : memStateOf rm' i = some s') (hraw : s' ≠ MemState.RAW) :
    (updateRM rm' i s').protocols.length = rm'.protocols.length := by
  unfold memStateOf at hstate
  cases hf : findMem rm' i with
  | none => rw [hf] at hstate; simp at hstate
  | some mi0 =>
      rw [hf] at hstate
      simp at hstate
      have hf2 : findMem (setMemState rm' i s') i =
          some { mi0 with state := s' } := by
        rw [findMem_setMemState, hf]
        rfl
      rw [updateRM_eq_found rm' i s' _ hf2]
      rw [show (setMemState rm' i s').rules = [rule1] from hrules]
      have hcond : (rule1.condition { mi0 with state := s' }
          (setMemState rm' i s').memories rule1.conditionArgs).isEmpty = true := by
        simp [rule1, eg_rule_condition, hraw]
      rw [tryRulesOn_cons_none _ _ _ _ (tryRuleOn_none_of_empty _ _ _ hcond),
        tryRulesOn_nil]
      rfl

theorem update_post_state_not_raw (rm : ResourceManager) (i : Nat)
    (s s' : MemState) (hrules : rm.rules = [rule1])
    (hs' : memStateOf (updateRM rm i s) i = some s') :
    s' ≠ MemState.RAW := by
  cases hf : findMem rm i with
  | none =>
      have hf2 : findMem (setMemState rm i s) i = none := by
        rw [findMem_setMemState, hf]
        rfl
      rw [updateRM_eq_notfound rm i s hf2] at hs'
      unfold memStateOf at hs'
      rw [hf2] at hs'
      simp at hs'
  | some mi0 =>
      have hid : mi0.id = i := findMem_id rm i mi0 hf
      have hf2 : findMem (setMemState rm i s) i =
          some { mi0 with state := s } := by
        rw [findMem_setMemState, hf]
        rfl
      have heq := updateRM_eq_found rm i s _ hf2
      rw [show (setMemState rm i s).rules = [rule1] from hrules] at heq
      by_cases hsraw : s = MemState.RAW
      · subst hsraw
        have hfire : tryRuleOn (setMemState rm i MemState.RAW) rule1
            { mi0 with state := MemState.RAW } =
            some (installRetry (processAction (setMemState rm i MemState.RAW)
              [{ mi0 with state := MemState.RAW }]
              ⟨{ EntanglementGenerationA ("EGA." ++ mi0.name) "m1" "r2"
                  mi0.name with primary := true },
                [some "r2"], [some eg_req_func], [none]⟩)) := rfl
        rw [tryRulesOn_cons_some _ _ _ _ _ hfire] at heq
        rw [heq] at hs'
        unfold memStateOf at hs'
        have hmem : findMem (installRetry (processAction
            (setMemState rm i MemState.RAW)
            [{ mi0 with state := MemState.RAW }]
            ⟨{ EntanglementGenerationA ("EGA." ++ mi0.name) "m1" "r2"
                mi0.name with primary := true },
              [some "r2"], [some eg_req_func], [none]⟩)) i =
            findMem (processAction (setMemState rm i MemState.RAW)
              [{ mi0 with state := MemState.RAW }]
              ⟨{ EntanglementGenerationA ("EGA." ++ mi0.name) "m1" "r2"
                  mi0.name with primary := true },
                [some "r2"], [some eg_req_func], [none]⟩) i := rfl
        rw [hmem, findMem_processAction _ _ _ _ (show
            ({ mi0 with state := MemState.RAW } : MemoryInfo).id = i from hid),
          hf2] at hs'
        simp [memStep] at hs'
        rw [← hs']
        simp
      · have hcond : (rule1.condition { mi0 with state := s }
            (setMemState rm i s).memories rule1.conditionArgs).isEmpty =
            true := by
          simp [rule1, eg_rule_condition, hsraw]
        rw [tryRulesOn_cons_none _ _ _ _
          (tryRuleOn_none_of_empty _ _ _ hcond), tryRulesOn_nil] at heq
        rw [heq] at hs'
        unfold memStateOf at hs'
        rw [hf2] at hs'
        simp at hs'
        rw [← hs']
        exact hsraw

/-- Claim C9: With the notebook's rule installed (`rule1`, whose
`eg_rule_condition` matches only `RAW` records), calling the Resource
Manager's `update` twice in succession with the same resulting state —
the second call re-submitting exactly the state the record was left in by
the first — creates no additional protocol instance: the second evaluation
of a memory no longer in `RAW` yields an empty match and fires no action,
so at most one protocol is created for the memory. -/
theorem update_twice_one_protocol (rm : ResourceManager) (i : Nat)
    (s s' : MemState) (hrules : rm.rules = [rule1])
    (hs' : memStateOf (updateRM rm i s) i = some s') :
    (updateRM (updateRM rm i s) i s').protocols.length =
      (updateRM rm i s).protocols.length := by
  have hnotraw := update_post_state_not_raw rm i s s' hrules hs'
  have hrl : (updateRM rm i s).rules = [rule1] := by
    rw [updateRM_rules]
    exact hrules
  exact update_unchanged_no_fire (updateRM rm i s) i s' hrl hs' hnotraw

/-- Router 1's Resource Manager with `rule1` installed and one `RAW`
memory, for the C9 witness. -/
def rmWithRule : ResourceManager :=
  ⟨"r1", [rule1], [initMemory 0 "r1m0"], [], [], [], [], []⟩

/-- Witness for C9: updating the single memory of `rmWithRule` to `RAW`
fires the rule once (leaving the record `OCCUPIED`); a second `update` with
that same resulting state `OCCUPIED` creates no further protocol. -/
theorem update_twice_one_protocol_witness :
    (updateRM (updateRM rmWithRule 0 MemState.RAW) 0
        MemState.OCCUPIED).protocols.length =
      (updateRM rmWithRule 0 MemState.RAW).protocols.length :=
  update_twice_one_protocol rmWithRule 0 MemState.RAW MemState.OCCUPIED rfl
    rfl

theorem markPaired_mem (ps : List Protocol) (n partner : String)
    (q : Protocol) (hq : q ∈ markPaired ps n partner) (hname : q.name = n) :
    q.partner = some partner ∧ q.started = true := by
  unfold markPaired at hq
  obtain ⟨q0, hq0, hmap⟩ := List.mem_map.mp hq
  by_cases h : q0.name = n
  · rw [if_pos h] at hmap
    rw [← hmap]
    exact ⟨rfl, rfl⟩
  · rw [if_neg h] at hmap
    rw [← hmap] at hname
    exact absurd hname h

/-- Claim C5: `receive_request(condition_fn, args)` run against a node's
installed protocols: when the condition function matches a protocol `p`, the
pairing is completed — the matched protocol and the requesting protocol each
reference the other as partner and both are signaled to start — and the
pending buffer is untouched; when no protocol matches, the request is not
lost: it is buffered (keyed by its remote node id) with no error and the
requester is untouched.  The buffered request waits until a matching
protocol is installed or its timeout fires: at every protocol installation
the manager re-runs the buffered requests (`installRetry`, invoked by
`tryRuleOn` after each install), and a buffered request whose condition
function now matches completes its pairing — it leaves the buffer, the
matched protocol references the requester and is started, and the
acknowledgement for the requester is queued — while one that still finds no
match stays buffered unchanged; when its timeout fires, an expired buffered
request is silently dropped — the error log is never written in any of
these paths. -/
theorem receive_request_matching (src dst : ResourceManager) (req : Request)
    (p : Protocol) (now : Nat) (rmB : ResourceManager) (reqB : Request)
    (pB : Protocol) :
    (req.reqFun dst.protocols req.reqArgs = some p →
      (∀ q ∈ (deliverRequest src dst req).2.protocols, q.name = p.name →
        q.partner = some req.srcProtocol ∧ q.started = true) ∧
        (∀ q ∈ (deliverRequest src dst req).1.protocols,
          q.name = req.srcProtocol →
            q.partner = some p.name ∧ q.started = true) ∧
        (deliverRequest src dst req).2.pending = dst.pending) ∧
      (req.reqFun dst.protocols req.reqArgs = none →
        (deliverRequest src dst req).2.pending = dst.pending ++ [req] ∧
          (deliverRequest src dst req).1 = src ∧
          (deliverRequest src dst req).2.errorLog = dst.errorLog) ∧
      (rmB.pending = [reqB] →
        reqB.reqFun rmB.protocols reqB.reqArgs = some pB →
        (installRetry rmB).pending = [] ∧
          (∀ q ∈ (installRetry rmB).protocols, q.name = pB.name →
            q.partner = some reqB.srcProtocol ∧ q.started = true) ∧
          (installRetry rmB).responses = rmB.responses ++
            [⟨reqB.srcNode, reqB.srcProtocol, pB.name⟩]) ∧
      (rmB.pending = [reqB] →
        reqB.reqFun rmB.protocols reqB.reqArgs = none →
        (installRetry rmB).pending = [reqB] ∧
          (installRetry rmB).protocols = rmB.protocols ∧
          (installRetry rmB).errorLog = rmB.errorLog) ∧
      ((dropExpired dst now).pending =
          dst.pending.filter (fun r => decide (now < r.expiry)) ∧
        (dropExpired dst now).errorLog = dst.errorLog ∧
        (dropExpired dst now).protocols = dst.protocols) := by
  refine ⟨fun hmatch => ?_, fun hnone => ?_, fun hpend hm => ?_,
    fun hpend hm => ?_, rfl, rfl, rfl⟩
  · have hd : deliverRequest src dst req =
        ({ src with protocols :=
            markPaired src.protocols req.srcProtocol p.name },
          { dst with protocols :=
            markPaired dst.protocols p.name req.srcProtocol }) := by
      simp [deliverRequest, receive_request, hmatch, receive_response]
    rw [hd]
    refine ⟨fun q hq hn => markPaired_mem _ _ _ q hq hn,
      fun q hq hn => markPaired_mem _ _ _ q hq hn, rfl⟩
  · have hd : deliverRequest src dst req =
        (src, { dst with pending := dst.pending ++ [req] }) := by
      simp [deliverRequest, receive_request, hnone]
    rw [hd]
    exact ⟨rfl, rfl, rfl⟩
  · have hmp : matchPending [reqB] rmB.protocols =
        (markPaired rmB.protocols pB.name reqB.srcProtocol, [],
          [⟨reqB.srcNode, reqB.srcProtocol, pB.name⟩]) := by
      simp [matchPending, hm]
    have hins : installRetry rmB =
        { rmB with
          protocols := markPaired rmB.protocols pB.name reqB.srcProtocol,
          pending := [],
          responses := rmB.responses ++
            [⟨reqB.srcNode, reqB.srcProtocol, pB.name⟩] } := by
      unfold installRetry
      rw [hpend, hmp]
    rw [hins]
    exact ⟨rfl, fun q hq hn => markPaired_mem _ _ _ q hq hn, rfl⟩
  · have hmp : matchPending [reqB] rmB.protocols =
        (rmB.protocols, [reqB], []) := by
      simp [matchPending, hm]
    have hins : installRetry rmB =
        { rmB with
          protocols := rmB.protocols,
          pending := [reqB],
          responses := rmB.responses ++ [] } := by
      unfold installRetry
      rw [hpend, hmp]
    rw [hins]
    exact ⟨rfl, rfl, rfl⟩

/-- The requesting node's protocol in the C5 witness scenario. -/
def egaReqSide : Protocol :=
  { EntanglementGenerationA "EGA.r1m0" "m1" "r2" "r1m0" with primary := true }

/-- The responding node's protocol in the C5 witness scenario. -/
def egaRspSide : Protocol :=
  EntanglementGenerationA "EGA.r2m0" "m1" "r1" "r2m0"

/-- The pairing request r1 sends to r2 in the C5 witness scenario, carrying
`eg_req_func` as its condition function. -/
def reqR1toR2 : Request :=
  ⟨"r1", "EGA.r1m0", eg_req_func, none, 10⟩

/-- Router r1's Resource Manager in the C5 witness scenario. -/
def rmR1 : ResourceManager :=
  ⟨"r1", [], [], [egaReqSide], [], [], [], []⟩

/-- Router r2's Resource Manager in the C5 witness scenario. -/
def rmR2 : ResourceManager :=
  ⟨"r2", [], [], [egaRspSide], [], [], [], []⟩

/-- Router r2's Resource Manager before any protocol exists, for the C5
out-of-order witness: a request arriving here matches nothing and is
buffered. -/
def rmR2Empty : ResourceManager :=
  ⟨"r2", [], [initMemory 0 "r2m0"], [], [], [], [], []⟩

/-- Router r2 after buffering r1's early request (no protocol was installed
yet, so `receive_request` matched nothing) and then installing
`egaRspSide` through a fired rule action: the buffered request is still
pending and a matching protocol is now present. -/
def rmR2LateInstall : ResourceManager :=
  processAction (receive_request rmR2Empty reqR1toR2).1
    [initMemory 0 "r2m0"] ⟨egaRspSide, [none], [none], [none]⟩

/-- The responding-side protocol after pairing completes in the C5 witness
scenario. -/
def egaRspPaired : Protocol :=
  { egaRspSide with partner := some "EGA.r1m0", started := true }

/-- The requesting-side protocol after pairing completes in the C5 witness
scenario. -/
def egaReqPaired : Protocol :=
  { egaReqSide with partner := some "EGA.r2m0", started := true }

/-- Witness for C5: delivering r1's concrete pairing request to r2, whose
single installed protocol `eg_req_func` matches, leaves both sides
referencing each other as partners and started; and in the out-of-order
scenario — the same request arriving before r2 has any protocol — the
buffered request is completed by the retry that follows `egaRspSide`'s
installation: it leaves the buffer and the acknowledgement for r1 is
queued. -/
theorem receive_request_matching_witness :
    egaRspPaired.partner = some "EGA.r1m0" ∧
      egaReqPaired.partner = some "EGA.r2m0" ∧
      (installRetry rmR2LateInstall).pending = [] ∧
      (installRetry rmR2LateInstall).responses =
        [] ++ [⟨"r1", "EGA.r1m0", "EGA.r2m0"⟩] := by
  have h := receive_request_matching rmR1 rmR2 reqR1toR2 egaRspSide 0
    rmR2LateInstall reqR1toR2 egaRspSide
  have h1 := h.1 (by decide)
  have h3 := h.2.2.1 rfl (by decide)
  refine ⟨(h1.1 egaRspPaired (by decide) (by decide)).1, ?_, h3.1, h3.2.2⟩
  exact (h1.2.1 egaReqPaired (by decide) (by decide)).1

/-- Witness for C4: a concrete Resource Manager processing the results of
both notebook actions on a concrete `RAW` memory record. -/
theorem action_result_interpretation_witness :
    (∀ res, eg_rule_action1 [initMemory 0 "mem0"] none = some res →
      (processAction ⟨"r1", [], [initMemory 0 "mem0"], [], [], [], [], []⟩
            [initMemory 0 "mem0"] res).protocols = [] ++ [res.protocol] ∧
        (processAction ⟨"r1", [], [initMemory 0 "mem0"], [], [], [], [], []⟩
            [initMemory 0 "mem0"] res).outbox =
          [] ++ [⟨"r2", eg_req_func, none⟩]) ∧
      (∀ res, eg_rule_action2 [initMemory 0 "mem0"] none = some res →
        (processAction ⟨"r1", [], [initMemory 0 "mem0"], [], [], [], [], []⟩
            [initMemory 0 "mem0"] res).protocols = [] ++ [res.protocol] ∧
          (processAction ⟨"r1", [], [initMemory 0 "mem0"], [], [], [], [], []⟩
            [initMemory 0 "mem0"] res).outbox = []) :=
  action_result_interpretation
    ⟨"r1", [], [initMemory 0 "mem0"], [], [], [], [], []⟩
    [initMemory 0 "mem0"] [] (initMemory 0 "mem0") none

end SeQUeNCe
